import Mathlib

/-!
Verification development for the DTV local media relay core
(src/src-tauri/src/proxy.rs and src/src-tauri/src/main.rs).

The Rust code is shallowly embedded: strings are modelled as `String` or
`List Char` (the Rust code slices `&str` at byte positions, but every slice
point it uses is the boundary of an ASCII pattern match, so char-level and
byte-level slicing coincide on valid UTF-8); the `HashMap` of danmaku
listener registrations is modelled as an association list with the map
operations used by the code; `tokio::sync::oneshot` channels are modelled
as an indexed store of channel states; network effects (TCP connect, port
binding, HTTP fetches) are modelled as explicit environment parameters.
-/

namespace DTV

/-! ## Generic list/string helpers used by the embedding -/

/-- Character list of a string. -/
def chars (s : String) : List Char := s.data

/-- String built from a character list. -/
def ofChars (l : List Char) : String := String.mk l

/-- Concatenation of the images of `f` over a list (`Iterator::flat_map`). -/
def concatMap (f : α → List β) : List α → List β
  | [] => []
  | a :: l => f a ++ concatMap f l

/-- Index of the first occurrence of `pat` in a list (Rust `str::find` for a
string pattern, at char granularity). -/
def findSub (pat : List Char) : List Char → Option Nat
  | [] => if pat.isPrefixOf ([] : List Char) then some 0 else none
  | c :: rest =>
    if pat.isPrefixOf (c :: rest) then some 0
    else (findSub pat rest).map (· + 1)

/-- Index of the first double quote in a list (Rust `str::find('"')`). -/
def findQuote : List Char → Option Nat
  | [] => none
  | c :: rest => if c = '"' then some 0 else (findQuote rest).map (· + 1)

/-- Whether `hay` contains `pat` as a substring (Rust `str::contains`). -/
def containsSub (hay pat : String) : Bool := (findSub (chars pat) (chars hay)).isSome

/-- Rust `str::trim` (whitespace is modelled by `Char.isWhitespace`, which
covers the ASCII whitespace actually appearing in playlists). -/
def trimL (l : List Char) : List Char :=
  ((l.dropWhile Char.isWhitespace).reverse.dropWhile Char.isWhitespace).reverse

/-- Split a character list at every occurrence of a character, keeping empty
pieces; the result always has one more piece than there are separators. -/
def splitOnCh (sep : Char) : List Char → List (List Char)
  | [] => [[]]
  | c :: rest =>
    if c = sep then [] :: splitOnCh sep rest
    else
      match splitOnCh sep rest with
      | [] => [[c]]
      | h :: t => (c :: h) :: t

/-- Split a relative reference at the first occurrence of `c`, returning the
part before it and, when present, the part after it. -/
def splitAtCh (c : Char) : List Char → List Char × Option (List Char)
  | [] => ([], none)
  | d :: rest =>
    if d = c then ([], some rest)
    else
      let (a, b) := splitAtCh c rest
      (d :: a, b)

/-- Take the longest prefix on which `p` is false, returning it and the rest. -/
def spanNot (p : Char → Bool) : List Char → List Char × List Char
  | [] => ([], [])
  | c :: rest =>
    if p c then ([], c :: rest)
    else
      let (a, b) := spanNot p rest
      (c :: a, b)

/-! ## Model of the `url` crate (WHATWG URL) restricted to the hierarchical
http/https references this program resolves.

Modelled from the library dependency `url` (`Url::parse`, `Url::join`,
`Url::to_string`): only http/https URLs with host, path segments, query and
fragment are supported; userinfo, port elision, non-special schemes and the
parser's percent-encoding passes are outside the model (the playlists this
program rewrites do not exercise them).  `join` on a reference with a
non-http(s) scheme is conservatively treated as unresolvable. -/

structure Url where
  scheme : String
  host : String
  pathSegments : List String
  query : Option String
  fragment : Option String
deriving DecidableEq, Repr

/-- Serialization of a URL (`Url::to_string`): the path is rendered as
`/` followed by the `/`-separated segments. -/
def sepSlash : List String → String
  | [] => ""
  | [s] => s
  | s :: rest => s ++ "/" ++ sepSlash rest

def Url.toString (u : Url) : String :=
  u.scheme ++ "://" ++ u.host ++ "/" ++ sepSlash u.pathSegments
    ++ (match u.query with | some q => "?" ++ q | none => "")
    ++ (match u.fragment with | some f => "#" ++ f | none => "")

/-- Dot-segment removal on a segment list (`.` is dropped, `..` pops the
previous segment; a trailing dot segment leaves a directory path). -/
def removeDotSegments (segs : List String) : List String :=
  let out := segs.foldl
    (fun acc s =>
      if s = "." then acc
      else if s = ".." then acc.dropLast
      else acc ++ [s]) []
  match segs.getLast? with
  | some s => if s = "." || s = ".." then out ++ [""] else out
  | none => out

def isAuthorityEnd (c : Char) : Bool := c = '/' || c = '?' || c = '#'

/-- Path string (without its leading slash) to segments. -/
def splitSegs (l : List Char) : List String := (splitOnCh '/' l).map ofChars

/-- Parse the part of an http(s) URL after `scheme://`.  An empty authority
is a parse error (the `url` crate's `EmptyHost`). -/
def parseAfterScheme (scheme : String) (l : List Char) : Option Url :=
  let (auth, rest) := spanNot isAuthorityEnd l
  if auth = [] then none
  else
    let (beforeFrag, frag) := splitAtCh '#' rest
    let (pathq, query) := splitAtCh '?' beforeFrag
    let segs : List String :=
      match pathq with
      | [] => [""]
      | '/' :: p => splitSegs p
      | _ => [""]
    some { scheme := scheme, host := ofChars auth,
           pathSegments := removeDotSegments segs,
           query := query.map ofChars, fragment := frag.map ofChars }

/-- Parse an absolute http(s) URL (`Url::parse`). -/
def parseAbsUrl (s : String) : Option Url :=
  let l := chars s
  if List.isPrefixOf (chars "http://") l then parseAfterScheme "http" (l.drop 7)
  else if List.isPrefixOf (chars "https://") l then parseAfterScheme "https" (l.drop 8)
  else none

/-- Whether a reference starts with a scheme (a `:` before any `/`, `?`
or `#`, with an alphabetic first character). -/
def schemeLike (l : List Char) : Bool :=
  match l with
  | [] => false
  | c :: _ =>
    c.isAlpha &&
      (let (pre, rest) := splitAtCh ':' l
       match rest with
       | none => false
       | some _ => !pre.any (fun d => d = '/' || d = '?' || d = '#'))

/-- Resolve a reference against a base URL (`Url::join`). -/
def urlJoin (base : Url) (ref : String) : Option Url :=
  let l := chars ref
  if List.isPrefixOf (chars "http://") l || List.isPrefixOf (chars "https://") l then
    parseAbsUrl ref
  else if List.isPrefixOf (chars "//") l then
    parseAfterScheme base.scheme (l.drop 2)
  else if schemeLike l then none
  else
    let (beforeFrag, frag) := splitAtCh '#' l
    let (pathq, query) := splitAtCh '?' beforeFrag
    match pathq with
    | [] =>
      match query with
      | some q => some { base with query := some (ofChars q), fragment := frag.map ofChars }
      | none =>
        match frag with
        | some f => some { base with fragment := some (ofChars f) }
        | none => some { base with fragment := none }
    | '/' :: p =>
      some { base with pathSegments := removeDotSegments (splitSegs p),
                       query := query.map ofChars, fragment := frag.map ofChars }
    | _ =>
      some { base with
               pathSegments := removeDotSegments (base.pathSegments.dropLast ++ splitSegs pathq),
               query := query.map ofChars, fragment := frag.map ofChars }

/-! ## Model of the `urlencoding` crate.

`urlencoding::encode` percent-encodes, with uppercase hex, every byte of the
UTF-8 encoding of its input except ASCII alphanumerics and `-`, `.`, `_`,
`~`.  Since every byte it keeps is a one-byte (ASCII) character and every
multi-byte character consists solely of escaped bytes, the byte-level pass is
implemented per character. -/

def isSafeChar (c : Char) : Bool :=
  c.isAlphanum || c = '-' || c = '.' || c = '_' || c = '~'

/-- Uppercase hex digit of a value below 16. -/
def hexDigit (n : Nat) : Char :=
  if n < 10 then Char.ofNat (48 + n) else Char.ofNat (55 + n)

/-- UTF-8 bytes of a character, as natural numbers. -/
def utf8Bytes (c : Char) : List Nat :=
  let n := c.toNat
  if n < 128 then [n]
  else if n < 2048 then [192 + n / 64, 128 + n % 64]
  else if n < 65536 then [224 + n / 4096, 128 + n / 64 % 64, 128 + n % 64]
  else [240 + n / 262144, 128 + n / 4096 % 64, 128 + n / 64 % 64, 128 + n % 64]

/-- Percent-escape of one byte. -/
def escByte (b : Nat) : List Char := ['%', hexDigit (b / 16), hexDigit (b % 16)]

def encChar (c : Char) : List Char :=
  if isSafeChar c then [c] else concatMap escByte (utf8Bytes c)

/-- `urlencoding::encode`. -/
def urlencode (s : String) : String := ofChars (concatMap encChar (chars s))

/-! ## The playlist rewriter (src/src-tauri/src/proxy.rs).

`rewrite_attribute_uri` is `proxy.rs:125-144`; `rewrite_playlist_line` is the
per-line closure of `hls_proxy_handler` (`proxy.rs:201-218`);
`hls_rewrite_playlist` is the `lines()`/`map`/`join("\n")` pipeline of
`hls_proxy_handler` applied to a fetched playlist text. -/

def uriKey : List Char := chars "URI=\""

def rewrite_attribute_uri (line : List Char) (base : Url) : List Char :=
  match findSub uriKey line with
  | none => line
  | some start =>
    let rest := line.drop (start + uriKey.length)
    match findQuote rest with
    | none => line
    | some stop =>
      let raw := rest.take stop
      let resolved : String :=
        match urlJoin base (ofChars raw) with
        | some u => u.toString
        | none => ofChars raw
      let proxied : String := "/hls?url=" ++ urlencode resolved
      line.take (start + uriKey.length) ++ chars proxied ++ '"' :: rest.drop (stop + 1)

def rewrite_playlist_line (base : Url) (line : List Char) : List Char :=
  let trimmed := trimL line
  if trimmed = [] then line
  else if trimmed.head? = some '#' then rewrite_attribute_uri line base
  else
    let resolved : String :=
      match urlJoin base (ofChars trimmed) with
      | some u => u.toString
      | none => ofChars trimmed
    chars ("/hls?url=" ++ urlencode resolved)

/-- Split at newlines (full split: `n` separators give `n + 1` pieces). -/
def splitNl : List Char → List (List Char) := splitOnCh '\n'

/-- Strip one trailing carriage return (the `\r` of a `\r\n` line ending). -/
def stripCr (l : List Char) : List Char :=
  match l.getLast? with
  | some c => if c = '\r' then l.dropLast else l
  | none => l

/-- From the full newline split to Rust `str::lines()`: the final piece is
kept only if non-empty (the final line terminator is optional) and is not
`\r`-stripped (only `\r` directly before a `\n` belongs to a line ending). -/
def rustLinesAux : List (List Char) → List (List Char)
  | [] => []
  | [last] => if last = [] then [] else [last]
  | p :: rest => stripCr p :: rustLinesAux rest

/-- Rust `str::lines()` as a list of char lists. -/
def rustLines (s : String) : List (List Char) := rustLinesAux (splitNl (chars s))

/-- `Vec::join("\n")`. -/
def joinNl : List (List Char) → List Char
  | [] => []
  | [l] => l
  | l :: ls => l ++ '\n' :: joinNl ls

/-- The playlist rewrite performed by the HLS route on a fetched playlist. -/
def hls_rewrite_playlist (base : Url) (text : String) : String :=
  ofChars (joinNl ((rustLines text).map (rewrite_playlist_line base)))

/-- The base URL of the worked examples in the spec, i.e. the parse of
`https://cdn.example.com/live/index.m3u8`. -/
def exBase : Url :=
  { scheme := "https", host := "cdn.example.com",
    pathSegments := ["live", "index.m3u8"], query := none, fragment := none }

/-! ## The header policy (`apply_common_headers`, proxy.rs:33-55) and the FLV
route's inline header construction (`flv_proxy_handler`, proxy.rs:267-286).

A `reqwest::RequestBuilder` is modelled as the ordered list of
(name, value) pairs added by its `.header` calls. -/

def chromeUA : String :=
  "Mozilla/5.0 (Windows NT 10.0; Win64; x64) AppleWebKit/537.36 (KHTML, like Gecko) Chrome/120.0.0.0 Safari/537.36"

def flvAccept : String := "video/x-flv,application/octet-stream,*/*"

def biliCond (url : String) : Bool :=
  containsSub url "hdslb.com" || containsSub url "bilibili.com"

def huyaCond (url : String) : Bool :=
  containsSub url "huya.com" || containsSub url "hy-cdn.com" || containsSub url "huyaimg.com"

def douyinCond (url : String) : Bool :=
  containsSub url "douyin" || containsSub url "douyinpic.com"

/-- The bilibili condition of `flv_proxy_handler` (proxy.rs:284), which also
matches `bilivideo`. -/
def flvBiliCond (url : String) : Bool :=
  containsSub url "bilivideo" || containsSub url "bilibili.com" || containsSub url "hdslb.com"

def apply_common_headers (req : List (String × String)) (url : String) :
    List (String × String) :=
  let req := req ++
    [("User-Agent", chromeUA), ("Accept", "*/*"), ("Connection", "keep-alive")]
  if biliCond url then
    req ++ [("Referer", "https://live.bilibili.com/"), ("Origin", "https://live.bilibili.com")]
  else if huyaCond url then
    req ++ [("Referer", "https://www.huya.com/"), ("Origin", "https://www.huya.com")]
  else if douyinCond url then
    req ++ [("Referer", "https://www.douyin.com/")]
  else req

/-- The headers `flv_proxy_handler` builds inline for its upstream fetch
(proxy.rs:267-286). -/
def flv_request_headers (url : String) : List (String × String) :=
  let req := [("User-Agent", chromeUA), ("Accept", flvAccept),
    ("Range", "bytes=0-"), ("Connection", "keep-alive")]
  let req := if huyaCond url then
    req ++ [("Referer", "https://www.huya.com/"), ("Origin", "https://www.huya.com")]
  else req
  if flvBiliCond url then req ++ [("Referer", "https://live.bilibili.com/")] else req

/-- The header set the refinement claim compares against: the Header Policy
for the URL plus the byte-range-from-zero Range header and the streaming
media Accept header. -/
def policyPlusStream (url : String) : List (String × String) :=
  apply_common_headers [] url ++ [("Range", "bytes=0-"), ("Accept", flvAccept)]

/-! ## The danmaku listener registry (main.rs:85-138).

`DouyuDanmakuHandles` is a mutex-guarded `HashMap<String, oneshot::Sender<()>>`;
it is modelled as an association list whose keys stay unique.  Each oneshot
channel is identified by the index at which it was allocated in `chans`;
`ChanSt.pending` means the receiver is still waiting (a send is delivered),
`ChanSt.fired` that the signal was already consumed, `ChanSt.rxDropped` that
the listener task exited on its own and dropped the receiver (a send fails).
`events` records, in order, every invocation of a cancellation sender and
every store of a fresh sender, so that ordering claims can be stated. -/

inductive ChanSt
  | pending
  | fired
  | rxDropped
deriving DecidableEq, Repr

inductive REvent
  | sent (chan : Nat)
  | stored (room : String) (chan : Nat)
deriving DecidableEq, Repr

structure RegState where
  handles : List (String × Nat)
  chans : List ChanSt
  events : List REvent
deriving DecidableEq, Repr

def regInit : RegState := { handles := [], chans := [], events := [] }

instance exceptDecEq {ε α : Type} [DecidableEq ε] [DecidableEq α] :
    DecidableEq (Except ε α) := fun x y =>
  match x, y with
  | Except.ok a, Except.ok b =>
    if h : a = b then isTrue (by rw [h])
    else isFalse (by intro hc; cases hc; exact h rfl)
  | Except.error a, Except.error b =>
    if h : a = b then isTrue (by rw [h])
    else isFalse (by intro hc; cases hc; exact h rfl)
  | Except.ok _, Except.error _ => isFalse (by intro hc; cases hc)
  | Except.error _, Except.ok _ => isFalse (by intro hc; cases hc)

/-- `HashMap` lookup. -/
def lookupKey (room : String) : List (String × Nat) → Option Nat
  | [] => none
  | (k, v) :: rest => if k = room then some v else lookupKey room rest

/-- `HashMap::remove`: drops the entry for the key. -/
def removeEntry (room : String) : List (String × Nat) → List (String × Nat)
  | [] => []
  | (k, v) :: rest =>
    if k = room then removeEntry room rest else (k, v) :: removeEntry room rest

/-- Number of registrations held for a room id. -/
def countFor (room : String) : List (String × Nat) → Nat
  | [] => 0
  | (k, _) :: rest => (if k = room then 1 else 0) + countFor room rest

/-- Whether the receiver of channel `c` is still waiting. -/
def chanAlive (st : RegState) (c : Nat) : Bool :=
  match st.chans[c]? with
  | some ChanSt.pending => true
  | _ => false

/-- `oneshot::Sender::send(())`: returns whether the signal was delivered,
records the invocation, and consumes the pending state. -/
def sendSignal (st : RegState) (c : Nat) : Bool × RegState :=
  let delivered := chanAlive st c
  ( delivered,
    { st with
        chans := if delivered then st.chans.set c ChanSt.fired else st.chans,
        events := st.events ++ [REvent.sent c] } )

/-- `start_danmaku_listener` (main.rs:85-119): cancel and discard any
existing registration for the room (ignoring send failure), then create a
fresh oneshot channel, store its sender, and spawn the listener task holding
the receiver. -/
def start_danmaku_listener (room : String) (st : RegState) : RegState :=
  let st1 :=
    match lookupKey room st.handles with
    | some c => (sendSignal { st with handles := removeEntry room st.handles } c).2
    | none => st
  let newChan := st1.chans.length
  { st1 with
      chans := st1.chans ++ [ChanSt.pending],
      handles := st1.handles ++ [(room, newChan)],
      events := st1.events ++ [REvent.stored room newChan] }

/-- `stop_danmaku_listener` (main.rs:122-138): remove the registration if
present and signal it; error only when the signal could not be delivered. -/
def stop_danmaku_listener (room : String) (st : RegState) :
    Except String Unit × RegState :=
  match lookupKey room st.handles with
  | some c =>
    let (delivered, st2) := sendSignal { st with handles := removeEntry room st.handles } c
    ( if delivered then Except.ok ()
      else Except.error
        ("Failed to stop Douyu danmaku listener for room " ++ room ++ ": receiver dropped."),
      st2 )
  | none => (Except.ok (), st)

/-- Whether a command result is an error. -/
def isErrResult (r : Except String Unit) : Bool :=
  match r with
  | Except.ok _ => false
  | Except.error _ => true

inductive RegOp
  | start (room : String)
  | stop (room : String)
deriving DecidableEq, Repr

def applyOp (st : RegState) : RegOp → RegState
  | RegOp.start room => start_danmaku_listener room st
  | RegOp.stop room => (stop_danmaku_listener room st).2

/-- Run a sequence of start/stop commands from the initial (empty) registry. -/
def runOps (ops : List RegOp) : RegState := ops.foldl applyOp regInit

/-! ## Server lifecycle (proxy.rs:344-420, 423-494).

The primary relay's state is the managed `ProxyServerHandle` slot plus the
shared `StreamUrlStore`; binding the port is an environment outcome passed as
a parameter, and the observable side effects (stopping the previous server,
binding, spawning) are recorded as events.

The static relay's environment is a world with two observables: whether a
TCP connect to port 34721 currently succeeds, and what binding the port
would return.  After a successful bind the started server keeps running, so
in the successor world a connect succeeds and a bind would find the address
in use. -/

structure PState where
  serverHandle : Option Nat
  streamUrl : String
  nextHandle : Nat
deriving DecidableEq, Repr

inductive PEvent
  | stoppedServer (h : Nat)
  | boundPort (port : Nat)
  | spawnedServer
deriving DecidableEq, Repr

/-- `start_proxy` (proxy.rs:344-420). -/
def start_proxy (st : PState) (bindOk : Bool) :
    Except String String × PState × List PEvent :=
  let currentStreamUrl := st.streamUrl
  if currentStreamUrl = "" then
    (Except.error "Stream URL is not set in store. Cannot start proxy.", st, [])
  else
    let stopped : List PEvent :=
      match st.serverHandle with
      | some h => [PEvent.stoppedServer h]
      | none => []
    if bindOk then
      ( Except.ok "http://127.0.0.1:34719/live.flv",
        { st with serverHandle := some st.nextHandle, nextHandle := st.nextHandle + 1 },
        stopped ++ [PEvent.boundPort 34719, PEvent.spawnedServer] )
    else
      ( Except.error "[Rust/proxy.rs] Failed to bind server to port 34719",
        { st with serverHandle := none },
        stopped )

/-- `stop_proxy` (proxy.rs:497-508). -/
def stop_proxy (st : PState) : Except String Unit × PState × List PEvent :=
  match st.serverHandle with
  | some h => (Except.ok (), { st with serverHandle := none }, [PEvent.stoppedServer h])
  | none => (Except.ok (), st, [])

inductive BindOutcome
  | ok
  | addrInUse
  | otherFailure
deriving DecidableEq, Repr

structure NetWorld where
  connectOk : Bool
  bindOutcome : BindOutcome
deriving DecidableEq, Repr

structure StartOutcome where
  result : Except String String
  world : NetWorld
  bindAttempted : Bool
deriving DecidableEq, Repr

def staticBase : String := "http://127.0.0.1:34721"

/-- `start_static_proxy_server` (proxy.rs:423-494): if a TCP connect to the
fixed port already succeeds, return the base URL without binding; otherwise
bind, treating address-in-use as already running; report any other bind
failure. -/
def start_static_proxy_server (w : NetWorld) : StartOutcome :=
  if w.connectOk then
    { result := Except.ok staticBase, world := w, bindAttempted := false }
  else
    match w.bindOutcome with
    | BindOutcome.ok =>
      { result := Except.ok staticBase,
        world := { connectOk := true, bindOutcome := BindOutcome.addrInUse },
        bindAttempted := true }
    | BindOutcome.addrInUse =>
      { result := Except.ok staticBase, world := w, bindAttempted := true }
    | BindOutcome.otherFailure =>
      { result := Except.error "[Rust/proxy.rs] Failed to bind server to port 34721",
        world := w, bindAttempted := true }

/-- A URL of the short-video (douyin) family: its host contains the marker
`douyin`. -/
def douyinImageUrl : String := "https://v3-web.douyinvod.com/video/stream.mp4"

/-- A douyin FLV pull URL used to compare the FLV route's headers with the
header policy. -/
def douyinFlvUrl : String := "https://pull-l3.douyincdn.com/stage/stream-123.flv"

/-- A huya FLV pull URL on which the FLV route and the header policy agree. -/
def huyaFlvUrl : String := "https://tx.flv.huya.com/src/123.flv"

/-! ## Helper lemmas -/

lemma take_len_app (l₁ l₂ : List α) : (l₁ ++ l₂).take l₁.length = l₁ := by
  induction l₁ with
  | nil => rfl
  | cons a t ih => simp [ih]

lemma drop_len_app (l₁ l₂ : List α) : (l₁ ++ l₂).drop l₁.length = l₂ := by
  induction l₁ with
  | nil => rfl
  | cons a t ih => simp [ih]

lemma drop_len_add_app (l₁ l₂ : List α) (n : Nat) :
    (l₁ ++ l₂).drop (l₁.length + n) = l₂.drop n := by
  induction l₁ with
  | nil => simp
  | cons a t ih =>
    have h : (a :: t).length + n = (t.length + n) + 1 := by
      simp [List.length_cons]
      omega
    rw [List.cons_append, h, List.drop_succ_cons, ih]

lemma findQuote_append (X B : List Char) (hX : '"' ∉ X) :
    findQuote (X ++ '"' :: B) = some X.length := by
  induction X with
  | nil => simp [findQuote]
  | cons c t ih =>
    have hc : c ≠ '"' := by
      intro h
      exact hX (h ▸ List.mem_cons_self c t)
    have ht : '"' ∉ t := fun h => hX (List.mem_cons_of_mem c h)
    simp [findQuote, hc, ih ht]

lemma lookupKey_removeEntry (room : String) (l : List (String × Nat)) :
    lookupKey room (removeEntry room l) = none := by
  induction l with
  | nil => rfl
  | cons p rest ih =>
    obtain ⟨k, v⟩ := p
    by_cases h : k = room <;> simp [removeEntry, h, lookupKey, ih]

lemma chanAlive_handles (st : RegState) (hs : List (String × Nat)) (c : Nat) :
    chanAlive { st with handles := hs } c = chanAlive st c := rfl

lemma countFor_append (room : String) (l₁ l₂ : List (String × Nat)) :
    countFor room (l₁ ++ l₂) = countFor room l₁ + countFor room l₂ := by
  induction l₁ with
  | nil => simp [countFor]
  | cons p rest ih =>
    obtain ⟨k, v⟩ := p
    simp [countFor, ih]
    omega

lemma countFor_removeEntry (room : String) (l : List (String × Nat)) :
    countFor room (removeEntry room l) = 0 := by
  induction l with
  | nil => rfl
  | cons p rest ih =>
    obtain ⟨k, v⟩ := p
    by_cases h : k = room <;> simp [removeEntry, h, countFor, ih]

lemma countFor_removeEntry_le (room r : String) (l : List (String × Nat)) :
    countFor room (removeEntry r l) ≤ countFor room l := by
  induction l with
  | nil => exact Nat.le_refl 0
  | cons p rest ih =>
    obtain ⟨k, v⟩ := p
    by_cases h : k = r
    · rw [show removeEntry r ((k, v) :: rest) = removeEntry r rest from by
        simp [removeEntry, h]]
      exact Nat.le_trans ih (by simp only [countFor]; omega)
    · rw [show removeEntry r ((k, v) :: rest) = (k, v) :: removeEntry r rest from by
        simp [removeEntry, h]]
      simp only [countFor]
      exact Nat.add_le_add_left ih _

lemma countFor_of_lookup_none (room : String) (l : List (String × Nat))
    (h : lookupKey room l = none) : countFor room l = 0 := by
  induction l with
  | nil => rfl
  | cons p rest ih =>
    obtain ⟨k, v⟩ := p
    by_cases hk : k = room
    · simp [lookupKey, hk] at h
    · simp [lookupKey, hk] at h
      simp [countFor, hk, ih h]

lemma lookupKey_append_none (room : String) (l₁ l₂ : List (String × Nat))
    (h : lookupKey room l₁ = none) :
    lookupKey room (l₁ ++ l₂) = lookupKey room l₂ := by
  induction l₁ with
  | nil => rfl
  | cons p rest ih =>
    obtain ⟨k, v⟩ := p
    by_cases hk : k = room
    · simp [lookupKey, hk] at h
    · simp [lookupKey, hk] at h ⊢
      exact ih h

/-- The handles of a state after `start_danmaku_listener`: any entry for the
room is removed, and a fresh sender keyed by the room is appended, holding
the channel allocated at index `st.chans.length`. -/
lemma start_handles (room : String) (st : RegState) :
    (start_danmaku_listener room st).handles
      = (match lookupKey room st.handles with
         | some _ => removeEntry room st.handles
         | none => st.handles) ++ [(room, st.chans.length)] := by
  cases h : lookupKey room st.handles with
  | none => simp [start_danmaku_listener, h]
  | some c =>
    by_cases hd : chanAlive st c <;>
      simp [start_danmaku_listener, h, sendSignal, chanAlive_handles, hd]

lemma start_chans_length (room : String) (st : RegState) :
    (start_danmaku_listener room st).chans.length = st.chans.length + 1 := by
  cases h : lookupKey room st.handles with
  | none => simp [start_danmaku_listener, h]
  | some c =>
    by_cases hd : chanAlive st c <;>
      simp [start_danmaku_listener, h, sendSignal, chanAlive_handles, hd]

lemma start_lookup (room : String) (st : RegState) :
    lookupKey room (start_danmaku_listener room st).handles = some st.chans.length := by
  rw [start_handles]
  cases h : lookupKey room st.handles with
  | none => rw [lookupKey_append_none room _ _ h]; simp [lookupKey]
  | some c =>
    rw [lookupKey_append_none room _ _ (lookupKey_removeEntry room st.handles)]
    simp [lookupKey]

lemma start_countFor_self (room : String) (st : RegState) :
    countFor room (start_danmaku_listener room st).handles
      = countFor room (match lookupKey room st.handles with
          | some _ => removeEntry room st.handles
          | none => st.handles) + 1 := by
  rw [start_handles, countFor_append]
  simp [countFor]

lemma start_events_of_some (room : String) (st : RegState) (c : Nat)
    (h : lookupKey room st.handles = some c) :
    (start_danmaku_listener room st).events
      = st.events ++ [REvent.sent c, REvent.stored room st.chans.length] := by
  by_cases hd : chanAlive st c <;>
    simp [start_danmaku_listener, h, sendSignal, chanAlive_handles, hd]

/-- One registry command preserves the at-most-one-registration-per-room
invariant. -/
lemma applyOp_countFor (st : RegState) (op : RegOp) (room : String)
    (h : ∀ r, countFor r st.handles ≤ 1) :
    countFor room (applyOp st op).handles ≤ 1 := by
  cases op with
  | start r =>
    show countFor room (start_danmaku_listener r st).handles ≤ 1
    rw [start_handles, countFor_append]
    by_cases hr : r = room
    · subst hr
      cases hl : lookupKey r st.handles with
      | none => simp [countFor, countFor_of_lookup_none r st.handles hl]
      | some c => simp [countFor, countFor_removeEntry]
    · have h2 : countFor room [(r, st.chans.length)] = 0 := by simp [countFor, hr]
      rw [h2]
      cases hl : lookupKey r st.handles with
      | none => simpa using h room
      | some c =>
        simpa using Nat.le_trans (countFor_removeEntry_le room r st.handles) (h room)
  | stop r =>
    show countFor room (stop_danmaku_listener r st).2.handles ≤ 1
    cases hl : lookupKey r st.handles with
    | none => simpa [stop_danmaku_listener, hl] using h room
    | some c =>
      have hh : (stop_danmaku_listener r st).2.handles = removeEntry r st.handles := by
        simp [stop_danmaku_listener, hl, sendSignal]
      rw [hh]
      exact Nat.le_trans (countFor_removeEntry_le room r st.handles) (h room)

lemma chars_append (a b : String) : chars (a ++ b) = chars a ++ chars b := rfl

lemma mem_concatMap {α β : Type} (f : α → List β) (x : β) (l : List α) :
    x ∈ concatMap f l ↔ ∃ a ∈ l, x ∈ f a := by
  induction l with
  | nil => simp [concatMap]
  | cons a t ih => simp [concatMap, ih]

lemma char_toNat_lt (c : Char) : c.toNat < 1114112 := by
  have h : Nat.isValidChar c.toNat := c.valid
  rcases h with h | ⟨h1, h2⟩ <;> omega

lemma utf8Bytes_lt (c : Char) : ∀ b ∈ utf8Bytes c, b < 256 := by
  intro b hb
  have hc := char_toNat_lt c
  unfold utf8Bytes at hb
  by_cases h1 : c.toNat < 128
  · simp [h1] at hb
    omega
  · by_cases h2 : c.toNat < 2048
    · simp [h1, h2] at hb
      rcases hb with hb | hb <;> omega
    · by_cases h3 : c.toNat < 65536
      · simp [h1, h2, h3] at hb
        rcases hb with hb | hb | hb <;> omega
      · simp [h1, h2, h3] at hb
        rcases hb with hb | hb | hb | hb <;> omega

lemma hexDigit_ne_nl : ∀ n, n < 16 → hexDigit n ≠ '\n' := by decide

lemma encChar_not_nl (c : Char) : '\n' ∉ encChar c := by
  intro hmem
  unfold encChar at hmem
  by_cases hs : isSafeChar c
  · rw [if_pos hs] at hmem
    have hc : '\n' = c := List.mem_singleton.mp hmem
    rw [← hc] at hs
    exact absurd hs (by decide)
  · rw [if_neg hs] at hmem
    rcases (mem_concatMap escByte '\n' (utf8Bytes c)).mp hmem with ⟨b, hb, hx⟩
    have hlt : b < 256 := utf8Bytes_lt c b hb
    simp only [escByte] at hx
    rcases List.mem_cons.mp hx with h1 | hx2
    · exact absurd h1 (by decide)
    rcases List.mem_cons.mp hx2 with h2 | hx3
    · exact hexDigit_ne_nl (b / 16) (by omega) h2.symm
    rcases List.mem_cons.mp hx3 with h3 | hx4
    · exact hexDigit_ne_nl (b % 16) (by omega) h3.symm
    · simp at hx4

lemma urlencode_not_nl (s : String) : '\n' ∉ chars (urlencode s) := by
  intro h
  rcases (mem_concatMap encChar '\n' (chars s)).mp h with ⟨c, _, hx⟩
  exact encChar_not_nl c hx

lemma rewrite_attribute_uri_eq_of_none (line : List Char) (base : Url)
    (hf : findSub uriKey line = none) :
    rewrite_attribute_uri line base = line := by
  simp [rewrite_attribute_uri, hf]

lemma rewrite_attribute_uri_eq_of_noquote (line : List Char) (base : Url) (start : Nat)
    (hf : findSub uriKey line = some start)
    (hq : findQuote (line.drop (start + uriKey.length)) = none) :
    rewrite_attribute_uri line base = line := by
  simp [rewrite_attribute_uri, hf, hq]

lemma rewrite_attribute_uri_eq_of_quote (line : List Char) (base : Url) (start stop : Nat)
    (hf : findSub uriKey line = some start)
    (hq : findQuote (line.drop (start + uriKey.length)) = some stop) :
    rewrite_attribute_uri line base =
      line.take (start + uriKey.length)
        ++ chars ("/hls?url=" ++ urlencode
             (match urlJoin base (ofChars ((line.drop (start + uriKey.length)).take stop)) with
              | some u => u.toString
              | none => ofChars ((line.drop (start + uriKey.length)).take stop)))
        ++ '"' :: (line.drop (start + uriKey.length)).drop (stop + 1) := by
  simp [rewrite_attribute_uri, hf, hq]

lemma rewrite_attribute_uri_not_nl (line : List Char) (base : Url)
    (h : '\n' ∉ line) : '\n' ∉ rewrite_attribute_uri line base := by
  cases hf : findSub uriKey line with
  | none => rw [rewrite_attribute_uri_eq_of_none line base hf]; exact h
  | some start =>
    cases hq : findQuote (line.drop (start + uriKey.length)) with
    | none => rw [rewrite_attribute_uri_eq_of_noquote line base start hf hq]; exact h
    | some stop =>
      rw [rewrite_attribute_uri_eq_of_quote line base start stop hf hq]
      intro hmem
      simp only [List.mem_append, List.mem_cons] at hmem
      rcases hmem with (hm | hm) | hm | hm
      · exact h (List.take_subset _ _ hm)
      · rw [chars_append] at hm
        rcases List.mem_append.mp hm with hm2 | hm2
        · exact absurd hm2 (by decide)
        · exact urlencode_not_nl _ hm2
      · exact absurd hm (by decide)
      · exact h (List.drop_subset _ _ (List.drop_subset _ _ hm))

lemma rewrite_attribute_uri_ne_nil (line : List Char) (base : Url)
    (h : line ≠ []) : rewrite_attribute_uri line base ≠ [] := by
  cases hf : findSub uriKey line with
  | none => rw [rewrite_attribute_uri_eq_of_none line base hf]; exact h
  | some start =>
    cases hq : findQuote (line.drop (start + uriKey.length)) with
    | none => rw [rewrite_attribute_uri_eq_of_noquote line base start hf hq]; exact h
    | some stop =>
      rw [rewrite_attribute_uri_eq_of_quote line base start stop hf hq]
      intro hc
      rcases List.append_eq_nil.mp hc with ⟨hc1, hc2⟩
      rcases List.append_eq_nil.mp hc1 with ⟨_, hc3⟩
      rw [chars_append] at hc3
      rcases List.append_eq_nil.mp hc3 with ⟨hc4, _⟩
      exact absurd hc4 (by decide)

lemma rewrite_playlist_line_not_nl (base : Url) (line : List Char)
    (h : '\n' ∉ line) : '\n' ∉ rewrite_playlist_line base line := by
  simp only [rewrite_playlist_line]
  by_cases h1 : trimL line = []
  · rw [if_pos h1]
    exact h
  · rw [if_neg h1]
    by_cases h2 : (trimL line).head? = some '#'
    · rw [if_pos h2]
      exact rewrite_attribute_uri_not_nl line base h
    · rw [if_neg h2]
      intro hmem
      rw [chars_append] at hmem
      rcases List.mem_append.mp hmem with hm | hm
      · exact absurd hm (by decide)
      · exact urlencode_not_nl _ hm

lemma rewrite_playlist_line_nil (base : Url) : rewrite_playlist_line base [] = [] := rfl

lemma rewrite_playlist_line_ne_nil (base : Url) (line : List Char)
    (h : line ≠ []) : rewrite_playlist_line base line ≠ [] := by
  simp only [rewrite_playlist_line]
  by_cases h1 : trimL line = []
  · rw [if_pos h1]
    exact h
  · rw [if_neg h1]
    by_cases h2 : (trimL line).head? = some '#'
    · rw [if_pos h2]
      exact rewrite_attribute_uri_ne_nil line base h
    · rw [if_neg h2]
      intro hc
      rw [chars_append] at hc
      rcases List.append_eq_nil.mp hc with ⟨hc1, _⟩
      exact absurd hc1 (by decide)

lemma splitOnCh_ne_nil (sep : Char) (s : List Char) : splitOnCh sep s ≠ [] := by
  induction s with
  | nil => simp [splitOnCh]
  | cons c rest ih =>
    by_cases h : c = sep
    · simp [splitOnCh, h]
    · simp only [splitOnCh, if_neg h]
      cases hs : splitOnCh sep rest with
      | nil => simp
      | cons hd tl => simp

lemma splitOnCh_not_mem (sep : Char) (s : List Char) :
    ∀ p ∈ splitOnCh sep s, sep ∉ p := by
  induction s with
  | nil =>
    intro p hp
    simp [splitOnCh] at hp
    simp [hp]
  | cons c rest ih =>
    intro p hp
    by_cases h : c = sep
    · simp only [splitOnCh, if_pos h] at hp
      rcases List.mem_cons.mp hp with h2 | h2
      · simp [h2]
      · exact ih p h2
    · simp only [splitOnCh, if_neg h] at hp
      cases hs : splitOnCh sep rest with
      | nil => exact absurd hs (splitOnCh_ne_nil sep rest)
      | cons hd tl =>
        rw [hs] at hp
        rcases List.mem_cons.mp hp with h2 | h2
        · rw [h2]
          intro hm
          rcases List.mem_cons.mp hm with h3 | h3
          · exact h h3.symm
          · exact ih hd (by rw [hs]; exact List.mem_cons_self hd tl) h3
        · exact ih p (by rw [hs]; exact List.mem_cons_of_mem hd h2)

lemma splitOnCh_of_not_mem (sep : Char) (l : List Char) (h : sep ∉ l) :
    splitOnCh sep l = [l] := by
  induction l with
  | nil => rfl
  | cons c rest ih =>
    have hc : c ≠ sep := fun hh => h (hh ▸ List.mem_cons_self c rest)
    have hr : sep ∉ rest := fun hh => h (List.mem_cons_of_mem c hh)
    simp only [splitOnCh, if_neg hc, ih hr]

lemma splitOnCh_append_sep (sep : Char) (l m : List Char) (h : sep ∉ l) :
    splitOnCh sep (l ++ sep :: m) = l :: splitOnCh sep m := by
  induction l with
  | nil => simp [splitOnCh]
  | cons c rest ih =>
    have hc : c ≠ sep := fun hh => h (hh ▸ List.mem_cons_self c rest)
    have hr : sep ∉ rest := fun hh => h (List.mem_cons_of_mem c hh)
    rw [List.cons_append]
    simp only [splitOnCh, if_neg hc, ih hr]

lemma splitNl_joinNl (rs : List (List Char)) (h : rs ≠ [])
    (hnl : ∀ l ∈ rs, '\n' ∉ l) : splitNl (joinNl rs) = rs := by
  induction rs with
  | nil => exact absurd rfl h
  | cons l rest ih =>
    cases rest with
    | nil =>
      show splitNl (joinNl [l]) = [l]
      rw [show joinNl [l] = l from rfl]
      exact splitOnCh_of_not_mem '\n' l (hnl l (List.mem_cons_self l []))
    | cons q t =>
      rw [show joinNl (l :: q :: t) = l ++ '\n' :: joinNl (q :: t) from rfl]
      rw [show splitNl (l ++ '\n' :: joinNl (q :: t))
            = l :: splitNl (joinNl (q :: t)) from
          splitOnCh_append_sep '\n' l _ (hnl l (List.mem_cons_self l _))]
      rw [ih (by simp) (fun x hx => hnl x (List.mem_cons_of_mem l hx))]

lemma stripCr_not_mem (l : List Char) (h : '\n' ∉ l) : '\n' ∉ stripCr l := by
  cases hl : l.getLast? with
  | none =>
    rw [show stripCr l = l from by simp [stripCr, hl]]
    exact h
  | some c =>
    by_cases hc : c = '\r'
    · rw [show stripCr l = l.dropLast from by simp [stripCr, hl, hc]]
      intro hm
      exact h ((List.dropLast_sublist l).subset hm)
    · rw [show stripCr l = l from by simp [stripCr, hl, hc]]
      exact h

lemma rustLinesAux_not_mem (ps : List (List Char)) (hps : ∀ p ∈ ps, '\n' ∉ p) :
    ∀ x ∈ rustLinesAux ps, '\n' ∉ x := by
  induction ps with
  | nil =>
    intro x hx
    simp [rustLinesAux] at hx
  | cons p rest ih =>
    cases rest with
    | nil =>
      intro x hx
      by_cases hp : p = []
      · simp [rustLinesAux, hp] at hx
      · simp [rustLinesAux, hp] at hx
        rw [hx]
        exact hps p (List.mem_cons_self p [])
    | cons q t =>
      intro x hx
      rw [show rustLinesAux (p :: q :: t) = stripCr p :: rustLinesAux (q :: t) from rfl] at hx
      rcases List.mem_cons.mp hx with h | h
      · rw [h]
        exact stripCr_not_mem p (hps p (List.mem_cons_self p _))
      · exact ih (fun y hy => hps y (List.mem_cons_of_mem p hy)) x h

lemma rustLines_not_mem (s : String) : ∀ x ∈ rustLines s, '\n' ∉ x :=
  rustLinesAux_not_mem (splitNl (chars s)) (splitOnCh_not_mem '\n' (chars s))

lemma rustLinesAux_length (ps : List (List Char)) (hps : ps ≠ []) :
    (rustLinesAux ps).length
      = if ps.getLast? = some [] then ps.length - 1 else ps.length := by
  induction ps with
  | nil => exact absurd rfl hps
  | cons p rest ih =>
    cases rest with
    | nil =>
      by_cases h : p = [] <;> simp [rustLinesAux, h]
    | cons q t =>
      rw [show rustLinesAux (p :: q :: t) = stripCr p :: rustLinesAux (q :: t) from rfl]
      rw [List.length_cons, ih (by simp), List.getLast?_cons_cons]
      by_cases h : (q :: t).getLast? = some ([] : List Char) <;> simp [h]

lemma getLast?_isSome_of_ne_nil {α : Type} (l : List α) (h : l ≠ []) :
    ∃ a, l.getLast? = some a := by
  induction l with
  | nil => exact absurd rfl h
  | cons a t ih =>
    cases t with
    | nil => exact ⟨a, rfl⟩
    | cons b u =>
      rcases ih (by simp) with ⟨x, hx⟩
      exact ⟨x, by rw [List.getLast?_cons_cons]; exact hx⟩

lemma getLast?_map_eq {α β : Type} (f : α → β) (l : List α) :
    (l.map f).getLast? = l.getLast?.map f := by
  induction l with
  | nil => rfl
  | cons a t ih =>
    cases t with
    | nil => rfl
    | cons b u =>
      simp only [List.map_cons, List.getLast?_cons_cons]
      simp only [List.map_cons] at ih
      exact ih

/-! ## The claims -/

/-- Claim C8: starting the static relay is idempotent — a live connection to
the fixed port short-circuits to the existing base URL without binding;
an address-in-use bind failure is success with the same base URL; any other
bind failure is an error; and two back-to-back calls whose first returns the
base URL both return the identical base URL. -/
theorem claim8_static_relay_idempotent : ∀ w : NetWorld,
    (w.connectOk = true →
      start_static_proxy_server w =
        { result := Except.ok staticBase, world := w, bindAttempted := false })
    ∧ (w.connectOk = false → w.bindOutcome = BindOutcome.addrInUse →
        (start_static_proxy_server w).result = Except.ok staticBase)
    ∧ (w.connectOk = false → w.bindOutcome = BindOutcome.otherFailure →
        (start_static_proxy_server w).result =
          Except.error "[Rust/proxy.rs] Failed to bind server to port 34721")
    ∧ ((start_static_proxy_server w).result = Except.ok staticBase →
        (start_static_proxy_server (start_static_proxy_server w).world).result
          = Except.ok staticBase) := by
  intro w
  rcases w with ⟨c, b⟩
  cases c <;> cases b <;> decide

/-- Witness for claim C8: from a world where the port is free and a bind
would succeed, the first start returns the base URL, and the second call on
the resulting world returns the identical base URL. -/
theorem claim8_witness :
    (start_static_proxy_server
        (start_static_proxy_server ⟨false, BindOutcome.ok⟩).world).result
      = Except.ok staticBase :=
  (claim8_static_relay_idempotent ⟨false, BindOutcome.ok⟩).2.2.2 (by decide)

/-- Claim C10: when the shared stream target is empty, `start_proxy` fails
with an error before the supersede-and-bind sequence: the state (including
any existing primary relay handle) is unchanged and no stop/bind/spawn side
effect happens. -/
theorem claim10_empty_target_no_side_effects :
    ∀ (st : PState) (bindOk : Bool), st.streamUrl = "" →
      start_proxy st bindOk =
        (Except.error "Stream URL is not set in store. Cannot start proxy.", st, []) := by
  intro st b h
  simp [start_proxy, h]

/-- Witness for claim C10 at a state holding a live primary relay handle. -/
theorem claim10_witness :
    start_proxy { serverHandle := some 7, streamUrl := "", nextHandle := 8 } true =
      (Except.error "Stream URL is not set in store. Cannot start proxy.",
       { serverHandle := some 7, streamUrl := "", nextHandle := 8 }, []) :=
  claim10_empty_target_no_side_effects _ true rfl

/-- Claim C9: `stop_danmaku_listener` errors exactly when a registration for
the room existed but its cancellation signal could not be delivered; in
every case the registration is removed from the registry. -/
theorem claim9_stop_listener_semantics :
    ∀ (st : RegState) (room : String),
      (isErrResult (stop_danmaku_listener room st).1 = true ↔
        ∃ c, lookupKey room st.handles = some c ∧ chanAlive st c = false)
      ∧ lookupKey room (stop_danmaku_listener room st).2.handles = none := by
  intro st room
  cases h : lookupKey room st.handles with
  | none =>
    refine ⟨⟨fun he => ?_, fun hex => ?_⟩, ?_⟩
    · exact absurd he (by simp [stop_danmaku_listener, h, isErrResult])
    · obtain ⟨c, hc, _⟩ := hex
      cases hc
    · simp [stop_danmaku_listener, h]
  | some c =>
    cases hd : chanAlive st c with
    | true =>
      refine ⟨⟨fun he => ?_, fun hex => ?_⟩, ?_⟩
      · exact absurd he
          (by simp [stop_danmaku_listener, h, sendSignal, chanAlive_handles, hd, isErrResult])
      · obtain ⟨c', hc', hal⟩ := hex
        injection hc' with hc'
        rw [← hc', hd] at hal
        simp at hal
      · simp [stop_danmaku_listener, h, sendSignal, lookupKey_removeEntry]
    | false =>
      refine ⟨⟨fun _ => ⟨c, rfl, hd⟩, fun _ => ?_⟩, ?_⟩
      · simp [stop_danmaku_listener, h, sendSignal, chanAlive_handles, hd, isErrResult]
      · simp [stop_danmaku_listener, h, sendSignal, lookupKey_removeEntry]

/-- Counterexample to claim C6 as stated: for a URL of the short-video
(douyin) family the header policy injects only the Referer — no Origin
header is present, so the claimed Referer/Origin pair is not injected. -/
theorem claim6_counterexample :
    ("Referer", "https://www.douyin.com/") ∈ apply_common_headers [] douyinImageUrl
    ∧ (apply_common_headers [] douyinImageUrl).all (fun p => p.1 != "Origin") = true := by
  decide

/-- Claim C6 as amended: the baseline User-Agent, wildcard Accept and
keep-alive Connection headers are always present; a URL matching the
bilibili markers gets the bilibili Referer/Origin pair, else one matching
the huya markers gets the huya Referer/Origin pair, else one matching the
douyin markers gets only the douyin Referer (no Origin header at all);
matching is first-match-wins on substrings of the whole URL string, and a
URL matching no marker gets exactly the baseline headers. -/
theorem claim6_amended_header_policy :
    ∀ url : String,
      (("User-Agent", chromeUA) ∈ apply_common_headers [] url
        ∧ ("Accept", "*/*") ∈ apply_common_headers [] url
        ∧ ("Connection", "keep-alive") ∈ apply_common_headers [] url)
      ∧ (biliCond url = true →
          ("Referer", "https://live.bilibili.com/") ∈ apply_common_headers [] url
          ∧ ("Origin", "https://live.bilibili.com") ∈ apply_common_headers [] url)
      ∧ (biliCond url = false → huyaCond url = true →
          ("Referer", "https://www.huya.com/") ∈ apply_common_headers [] url
          ∧ ("Origin", "https://www.huya.com") ∈ apply_common_headers [] url)
      ∧ (biliCond url = false → huyaCond url = false → douyinCond url = true →
          ("Referer", "https://www.douyin.com/") ∈ apply_common_headers [] url
          ∧ (apply_common_headers [] url).all (fun p => p.1 != "Origin") = true)
      ∧ (biliCond url = false → huyaCond url = false → douyinCond url = false →
          apply_common_headers [] url =
            [("User-Agent", chromeUA), ("Accept", "*/*"), ("Connection", "keep-alive")]) := by
  intro url
  cases hb : biliCond url with
  | true => simp [apply_common_headers, hb]
  | false =>
    cases hh : huyaCond url with
    | true => simp [apply_common_headers, hb, hh]
    | false =>
      cases hd : douyinCond url with
      | true => simp [apply_common_headers, hb, hh, hd]
      | false => simp [apply_common_headers, hb, hh, hd]

/-- Witness for the amended claim C6: a huya-family URL receives both the
huya Referer and the huya Origin header. -/
theorem claim6_amended_witness :
    ("Referer", "https://www.huya.com/") ∈ apply_common_headers [] huyaFlvUrl
    ∧ ("Origin", "https://www.huya.com") ∈ apply_common_headers [] huyaFlvUrl :=
  (claim6_amended_header_policy huyaFlvUrl).2.2.1 (by decide) (by decide)

/-- Counterexample to claim C7 as stated: for a douyin-family stream URL the
header policy (plus Range and streaming Accept) contains the douyin Referer,
but the FLV route's inline headers do not — the two header sets differ. -/
theorem claim7_counterexample :
    ("Referer", "https://www.douyin.com/") ∈ policyPlusStream douyinFlvUrl
    ∧ ("Referer", "https://www.douyin.com/") ∉ flv_request_headers douyinFlvUrl := by
  decide

/-- Claim C7 as amended: for URLs containing none of the divergent markers
(the douyin markers and the bilibili markers, including the FLV route's
extra `bilivideo` marker), the FLV route's inline headers are exactly the
Header Policy's headers for the URL with the wildcard Accept replaced by the
streaming Accept, plus the byte-range-from-zero Range header; on the douyin
family the FLV route omits the policy's Referer, and on the bilibili family
it matches `bilivideo` too and sends Referer without Origin. -/
theorem claim7_amended_flv_headers :
    ∀ url : String,
      containsSub url "douyin" = false →
      containsSub url "douyinpic.com" = false →
      containsSub url "bilivideo" = false →
      containsSub url "bilibili.com" = false →
      containsSub url "hdslb.com" = false →
      List.Perm (flv_request_headers url)
        ((policyPlusStream url).erase ("Accept", "*/*")) := by
  intro url h1 h2 h3 h4 h5
  have hb : biliCond url = false := by simp [biliCond, h4, h5]
  have hd : douyinCond url = false := by simp [douyinCond, h1, h2]
  have hfb : flvBiliCond url = false := by simp [flvBiliCond, h3, h4, h5]
  cases hh : huyaCond url with
  | true =>
    simp only [flv_request_headers, policyPlusStream, apply_common_headers, hb, hd, hfb, hh]
    decide
  | false =>
    simp only [flv_request_headers, policyPlusStream, apply_common_headers, hb, hd, hfb, hh]
    decide

/-- Witness for the amended claim C7 at a huya FLV URL. -/
theorem claim7_amended_witness :
    List.Perm (flv_request_headers huyaFlvUrl)
      ((policyPlusStream huyaFlvUrl).erase ("Accept", "*/*")) :=
  claim7_amended_flv_headers huyaFlvUrl (by decide) (by decide) (by decide) (by decide)
    (by decide)

/-- Claim C4: a non-blank line not starting with `#` whose trimmed content
resolves against the base URL is rewritten to `/hls?url=` followed by the
percent-encoding of the resolved URL; in particular `segment1.ts` against
base `https://cdn.example.com/live/index.m3u8` rewrites to
`/hls?url=https%3A%2F%2Fcdn.example.com%2Flive%2Fsegment1.ts`. -/
theorem claim4_reference_line_rewrite :
    (∀ (base : Url) (line : List Char) (v : Url),
        trimL line ≠ [] →
        (trimL line).head? ≠ some '#' →
        urlJoin base (ofChars (trimL line)) = some v →
        rewrite_playlist_line base line = chars ("/hls?url=" ++ urlencode v.toString))
    ∧ rewrite_playlist_line exBase (chars "segment1.ts")
        = chars "/hls?url=https%3A%2F%2Fcdn.example.com%2Flive%2Fsegment1.ts" := by
  constructor
  · intro base line v h1 h2 hjoin
    simp only [rewrite_playlist_line]
    rw [if_neg h1, if_neg h2, hjoin]
  · decide

/-- Witness for claim C4: the spec's worked example, obtained by applying the
universal statement at the example base and line. -/
theorem claim4_witness :
    rewrite_playlist_line exBase (chars "segment1.ts")
      = chars ("/hls?url=" ++ urlencode (Url.toString
          { scheme := "https", host := "cdn.example.com",
            pathSegments := ["live", "segment1.ts"], query := none, fragment := none })) :=
  claim4_reference_line_rewrite.1 exBase (chars "segment1.ts")
    { scheme := "https", host := "cdn.example.com",
      pathSegments := ["live", "segment1.ts"], query := none, fragment := none }
    (by decide) (by decide) (by decide)

/-- Claim C5: in a tag line whose first `URI="..."` attribute has a
resolvable value `X`, the quoted value is replaced by `/hls?url=` plus the
percent-encoding of the resolved URL while every character before and after
the quoted value is preserved; a tag line without a `URI="` attribute passes
through unchanged. -/
theorem claim5_tag_line_uri_rewrite :
    (∀ (A X B : List Char) (base : Url) (v : Url),
        findSub uriKey (A ++ uriKey ++ X ++ '"' :: B) = some A.length →
        '"' ∉ X →
        urlJoin base (ofChars X) = some v →
        rewrite_attribute_uri (A ++ uriKey ++ X ++ '"' :: B) base =
          A ++ uriKey ++ chars ("/hls?url=" ++ urlencode v.toString) ++ '"' :: B)
    ∧ (∀ (line : List Char) (base : Url),
        findSub uriKey line = none → rewrite_attribute_uri line base = line) := by
  constructor
  · intro A X B base v hfind hX hjoin
    have hassoc : A ++ uriKey ++ X ++ '"' :: B = (A ++ uriKey) ++ (X ++ '"' :: B) := by
      simp [List.append_assoc]
    have hlen5 : A.length + uriKey.length = (A ++ uriKey).length := by
      simp [List.length_append]
    have hrest : (A ++ uriKey ++ X ++ '"' :: B).drop (A.length + uriKey.length)
        = X ++ '"' :: B := by
      rw [hassoc, hlen5, drop_len_app]
    have htake : (A ++ uriKey ++ X ++ '"' :: B).take (A.length + uriKey.length)
        = A ++ uriKey := by
      rw [hassoc, hlen5, take_len_app]
    have htakeX : (X ++ '"' :: B).take X.length = X := take_len_app X ('"' :: B)
    have hdropX : (X ++ '"' :: B).drop (X.length + 1) = B := drop_len_add_app X ('"' :: B) 1
    simp only [rewrite_attribute_uri, hfind, hrest, findQuote_append X B hX, htakeX, hjoin,
      htake, hdropX]
  · intro line base hnone
    simp [rewrite_attribute_uri, hnone]

/-- Witness for claim C5: the spec's worked example tag line
`#EXT-X-KEY:METHOD=AES-128,URI="key.bin"`, obtained by applying the
universal statement. -/
theorem claim5_witness :
    rewrite_attribute_uri (chars "#EXT-X-KEY:METHOD=AES-128," ++ uriKey ++ chars "key.bin"
        ++ '"' :: []) exBase
      = chars "#EXT-X-KEY:METHOD=AES-128," ++ uriKey
        ++ chars ("/hls?url=" ++ urlencode (Url.toString
            { scheme := "https", host := "cdn.example.com",
              pathSegments := ["live", "key.bin"], query := none, fragment := none }))
        ++ '"' :: [] :=
  claim5_tag_line_uri_rewrite.1 (chars "#EXT-X-KEY:METHOD=AES-128,") (chars "key.bin") []
    exBase
    { scheme := "https", host := "cdn.example.com",
      pathSegments := ["live", "key.bin"], query := none, fragment := none }
    (by decide) (by decide) (by decide)

/-- Counterexample to claim C2 as stated: the reference `http://` cannot be
resolved against the example base, yet the rewriter does not leave the raw
reference in place unescaped — it percent-encodes it and wraps it in the
`/hls?url=` prefix. -/
theorem claim2_counterexample :
    urlJoin exBase "http://" = none
    ∧ rewrite_playlist_line exBase (chars "http://") = chars "/hls?url=http%3A%2F%2F"
    ∧ rewrite_playlist_line exBase (chars "http://") ≠ chars "http://" := by
  decide

/-- Claim C2 as amended: when a reference cannot be resolved against the
base, the rewrite of the line (and hence of the playlist) still does not
fail — the raw reference is substituted for the absolute URL, so the output
is `/hls?url=` followed by the percent-encoding of the raw reference (the
raw value is escaped and wrapped, not left in place unchanged). -/
theorem claim2_amended_unresolvable_fallback :
    (∀ (base : Url) (line : List Char),
        trimL line ≠ [] →
        (trimL line).head? ≠ some '#' →
        urlJoin base (ofChars (trimL line)) = none →
        rewrite_playlist_line base line
          = chars ("/hls?url=" ++ urlencode (ofChars (trimL line))))
    ∧ (∀ (A X B : List Char) (base : Url),
        findSub uriKey (A ++ uriKey ++ X ++ '"' :: B) = some A.length →
        '"' ∉ X →
        urlJoin base (ofChars X) = none →
        rewrite_attribute_uri (A ++ uriKey ++ X ++ '"' :: B) base =
          A ++ uriKey ++ chars ("/hls?url=" ++ urlencode (ofChars X)) ++ '"' :: B) := by
  constructor
  · intro base line h1 h2 hjoin
    simp only [rewrite_playlist_line]
    rw [if_neg h1, if_neg h2, hjoin]
  · intro A X B base hfind hX hjoin
    have hassoc : A ++ uriKey ++ X ++ '"' :: B = (A ++ uriKey) ++ (X ++ '"' :: B) := by
      simp [List.append_assoc]
    have hlen5 : A.length + uriKey.length = (A ++ uriKey).length := by
      simp [List.length_append]
    have hrest : (A ++ uriKey ++ X ++ '"' :: B).drop (A.length + uriKey.length)
        = X ++ '"' :: B := by
      rw [hassoc, hlen5, drop_len_app]
    have htake : (A ++ uriKey ++ X ++ '"' :: B).take (A.length + uriKey.length)
        = A ++ uriKey := by
      rw [hassoc, hlen5, take_len_app]
    have htakeX : (X ++ '"' :: B).take X.length = X := take_len_app X ('"' :: B)
    have hdropX : (X ++ '"' :: B).drop (X.length + 1) = B := drop_len_add_app X ('"' :: B) 1
    simp only [rewrite_attribute_uri, hfind, hrest, findQuote_append X B hX, htakeX, hjoin,
      htake, hdropX]

/-- Witness for the amended claim C2: the unresolvable reference `http://`
is wrapped and escaped, by applying the universal statement. -/
theorem claim2_amended_witness :
    rewrite_playlist_line exBase (chars "http://")
      = chars ("/hls?url=" ++ urlencode (ofChars (trimL (chars "http://")))) :=
  claim2_amended_unresolvable_fallback.1 exBase (chars "http://")
    (by decide) (by decide) (by decide)

/-- Counterexample to claim C3 as stated: the playlist text built from the
lines `#EXTM3U` and an empty line (`"#EXTM3U\n\n"`) has two lines under the
code's own line decomposition, but its rewrite (`"#EXTM3U\n"`) has one —
the trailing empty line is absorbed when the rewritten lines are joined
with a single newline. -/
theorem claim3_counterexample :
    (rustLines "#EXTM3U\n\n").length = 2
    ∧ hls_rewrite_playlist exBase "#EXTM3U\n\n" = "#EXTM3U\n"
    ∧ (rustLines (hls_rewrite_playlist exBase "#EXTM3U\n\n")).length = 1 := by
  decide

/-- Claim C3 as amended: the rewrite maps the input's line decomposition
element-wise, so the output's line count equals the input's, except that
when the input's decomposition ends in an empty line that trailing empty
line is absorbed by the final newline-join and the count drops by exactly
one. -/
theorem claim3_amended_line_count :
    ∀ (base : Url) (text : String),
      (rustLines (hls_rewrite_playlist base text)).length =
        (rustLines text).length -
          (if (rustLines text).getLast? = some ([] : List Char) then 1 else 0) := by
  intro base text
  by_cases hne : rustLines text = []
  · rw [hls_rewrite_playlist, hne]
    simp only [List.map_nil, hne]
    decide
  · obtain ⟨a, ha⟩ := getLast?_isSome_of_ne_nil (rustLines text) hne
    have hrs_ne : (rustLines text).map (rewrite_playlist_line base) ≠ [] := by
      simpa using hne
    have hnlf : ∀ x ∈ (rustLines text).map (rewrite_playlist_line base), '\n' ∉ x := by
      intro x hx
      rcases List.mem_map.mp hx with ⟨y, hy, hxy⟩
      rw [← hxy]
      exact rewrite_playlist_line_not_nl base y (rustLines_not_mem text y hy)
    have hout : rustLines (hls_rewrite_playlist base text)
        = rustLinesAux ((rustLines text).map (rewrite_playlist_line base)) := by
      show rustLinesAux
        (splitNl (joinNl ((rustLines text).map (rewrite_playlist_line base)))) = _
      rw [splitNl_joinNl _ hrs_ne hnlf]
    rw [hout, rustLinesAux_length _ hrs_ne, getLast?_map_eq, ha, List.length_map]
    by_cases hae : a = []
    · rw [if_pos (by rw [hae]; simp [rewrite_playlist_line_nil]),
        if_pos (by rw [hae])]
    · rw [if_neg (by simp [rewrite_playlist_line_ne_nil base a hae]),
        if_neg (by simp [hae])]
      omega

/-- Claim C1: after any sequence of registry start/stop commands at most one
registration per room id exists; and after two successive starts for the
same room exactly one registration remains, holding the second start's fresh
channel, and the second start signalled the predecessor's sender (the
channel stored by the first start) strictly before storing the fresh one. -/
theorem claim1_registry_single_registration :
    (∀ (ops : List RegOp) (room : String),
        countFor room (runOps ops).handles ≤ 1)
    ∧ (∀ (st : RegState) (room : String),
        countFor room
          (start_danmaku_listener room (start_danmaku_listener room st)).handles = 1
        ∧ lookupKey room
            (start_danmaku_listener room (start_danmaku_listener room st)).handles
            = some (st.chans.length + 1)
        ∧ (start_danmaku_listener room (start_danmaku_listener room st)).events
            = (start_danmaku_listener room st).events
              ++ [REvent.sent st.chans.length,
                  REvent.stored room (st.chans.length + 1)]) := by
  constructor
  · have main : ∀ (ops : List RegOp) (st : RegState),
        (∀ r, countFor r st.handles ≤ 1) →
        ∀ r, countFor r (ops.foldl applyOp st).handles ≤ 1 := by
      intro ops
      induction ops with
      | nil => intro st h r; exact h r
      | cons op rest ih =>
        intro st h r
        exact ih (applyOp st op) (fun r2 => applyOp_countFor st op r2 h) r
    intro ops room
    exact main ops regInit (fun r => by simp [regInit, countFor]) room
  · intro st room
    refine ⟨?_, ?_, ?_⟩
    · rw [start_countFor_self, start_lookup]
      simp [countFor_removeEntry]
    · rw [start_lookup, start_chans_length]
    · rw [start_events_of_some room _ st.chans.length (start_lookup room st),
        start_chans_length]

end DTV
